import Mathlib

/-!
Verification development for the historical-research-platform ingestion core.

The repository contains four pipeline variants under `src/data_processing/`:
`process_revolutions.py` (class `RevolutionsDataProcessor`),
`process_revolutions_optimized.py` (class `MemoryOptimizedProcessor`),
`aws_transcript_processor_3files.py` (class `AWSTranscriptProcessor`) and
`aws_history_rome_processor.py` (class `AWSHistoryRomeProcessor`).

Texts are modelled as `List Char`.  Python's string helpers (`strip`,
slicing, `rfind`) are re-implemented below with Python's semantics for the
argument ranges that the pipeline code reaches (all indices involved are
nonnegative there, so `Nat` arithmetic agrees with Python's `int`).
Loops that are not structurally terminating are given a fuel parameter;
`none` means the loop did not finish within the given number of iterations,
so `∀ fuel, ... = none` expresses non-termination.
-/

/-- Characters treated as whitespace by Python's `str.strip()`. -/
def pyIsSpace (c : Char) : Bool :=
  c = ' ' || c = '\t' || c = '\n' || c = '\r' || c = '\x0b' || c = '\x0c'

/-- Python `s.strip()`: drop leading and trailing whitespace. -/
def pyStrip (s : List Char) : List Char :=
  ((s.dropWhile pyIsSpace).reverse.dropWhile pyIsSpace).reverse

/-- Python slice `s[a:b]` for `0 ≤ a, b` (the only case the pipeline reaches). -/
def pySlice (s : List Char) (a b : Nat) : List Char :=
  (s.take b).drop a

/-- `subMatchesAt sub s` : does `sub` occur in `s` starting at the head? -/
def subMatchesAt : List Char → List Char → Bool
  | [], _ => true
  | _ :: _, [] => false
  | a :: as, b :: bs => a = b && subMatchesAt as bs

/-- All start positions (offset by `i`) at which `sub` occurs in `s`, in
increasing order. -/
def subOccs (sub : List Char) : List Char → Nat → List Nat
  | [], i => if sub.isEmpty then [i] else []
  | c :: rest, i =>
      (if subMatchesAt sub (c :: rest) then [i] else []) ++ subOccs sub rest (i + 1)

/-- Python `s.rfind(sub, lo, hi)`: highest index of an occurrence of `sub`
lying entirely inside `s[lo:hi]`, or `-1` if there is none. -/
def pyRfind (sub s : List Char) (lo hi : Nat) : Int :=
  match ((subOccs sub s 0).filter
      (fun i => decide (lo ≤ i) && decide (i + sub.length ≤ min hi s.length))).getLast? with
  | some i => (i : Int)
  | none => -1

/-- Turn a string literal into the `List Char` text model. -/
def chars (s : String) : List Char := s.toList

def delimPeriod : List Char := chars (". ")

def delimBang : List Char := chars ("! ")

def delimQuestion : List Char := chars ("? ")

def delimBlank : List Char := chars ("\n\n")

/-- One text segment as built by the chunkers: the dict
`{'content', 'chunk_index', 'total_chunks', 'content_length', **episode_metadata}`.
`M` is the type of the splatted episode metadata. -/
structure Chunk (M : Type) where
  content : List Char
  chunkIndex : Nat
  totalChunks : Nat
  contentLength : Nat
  meta : M
deriving DecidableEq, Repr

/-- The backfill `for chunk in chunks: chunk['total_chunks'] = len(chunks)`
run after each chunking loop. -/
def backfillTotals {M : Type} (l : List (Chunk M)) : List (Chunk M) :=
  l.map (fun c => { c with totalChunks := l.length })

/-- `RevolutionsDataProcessor.chunk_text` sentence search: for each of
`'. '`, `'! '`, `'? '` take `pos = text.rfind(c, search_start, end)` and keep
`pos + len(c)` whenever `pos` exceeds the value kept so far (`-1` initially). -/
def revSentenceEnd (text : List Char) (searchStart e : Nat) : Int :=
  [delimPeriod, delimBang, delimQuestion].foldl
    (fun se d =>
      let pos := pyRfind d text searchStart e
      if se < pos then pos + (d.length : Int) else se) (-1)

/-- The window end used by `chunk_text` for a window starting at `start`:
snap to a sentence boundary when the window does not reach the text's end. -/
def revWindowEnd (cs ov : Nat) (text : List Char) (start : Nat) : Nat :=
  let e0 := min (start + cs) text.length
  if e0 < text.length then
    let ss := max (e0 - ov) (start + cs / 2)
    let se := revSentenceEnd text ss e0
    if 0 < se then se.toNat else e0
  else e0

/-- The `while start < text_length` loop of
`RevolutionsDataProcessor.chunk_text` (fuel-indexed; `none` = the given
number of iterations was not enough).  Note the unguarded
`start = end - self.chunk_overlap` update. -/
def chunkLoopRev {M : Type} (cs ov : Nat) (text : List Char) (m : M) :
    Nat → Nat → Nat → List (Chunk M) → Option (List (Chunk M))
  | 0, start, _, acc => if start < text.length then none else some acc
  | fuel + 1, start, cnt, acc =>
    if start < text.length then
      let e := revWindowEnd cs ov text start
      let ct := pyStrip (pySlice text start e)
      if ct.isEmpty then
        chunkLoopRev cs ov text m fuel (e - ov) cnt acc
      else
        chunkLoopRev cs ov text m fuel (e - ov) (cnt + 1)
          (acc ++ [⟨ct, cnt, 0, ct.length, m⟩])
    else some acc

/-- `RevolutionsDataProcessor.chunk_text` (fuel-indexed). -/
def chunkTextRev {M : Type} (cs ov fuel : Nat) (text : List Char) (m : M) :
    Option (List (Chunk M)) :=
  if text.length ≤ cs then some [⟨text, 0, 1, text.length, m⟩]
  else (chunkLoopRev cs ov text m fuel 0 0 []).map backfillTotals

/-- Same loop as `chunkLoopRev` but returning the chunks emitted so far when
fuel runs out: the observable prefix of the (possibly non-terminating) loop's
output, before the final `total_chunks` backfill. -/
def chunkEmitRev {M : Type} (cs ov : Nat) (text : List Char) (m : M) :
    Nat → Nat → Nat → List (Chunk M) → List (Chunk M)
  | 0, _, _, acc => acc
  | fuel + 1, start, cnt, acc =>
    if start < text.length then
      let e := revWindowEnd cs ov text start
      let ct := pyStrip (pySlice text start e)
      if ct.isEmpty then
        chunkEmitRev cs ov text m fuel (e - ov) cnt acc
      else
        chunkEmitRev cs ov text m fuel (e - ov) (cnt + 1)
          (acc ++ [⟨ct, cnt, 0, ct.length, m⟩])
    else acc

/-- `AWSHistoryRomeProcessor.create_text_chunks` boundary search: take the
first delimiter among `'. '`, `'! '`, `'? '`, `'\n\n'` whose `rfind` is not
`-1` and snap to just after it (`break` after the first hit). -/
def romeBreakScan (text : List Char) (ss e : Nat) : List (List Char) → Nat
  | [] => e
  | d :: ds =>
      let pos := pyRfind d text ss e
      if pos ≠ -1 then (pos + (d.length : Int)).toNat else romeBreakScan text ss e ds

/-- Window end for `AWSHistoryRomeProcessor.create_text_chunks`. -/
def romeWindowEnd (cs ov : Nat) (text : List Char) (start : Nat) : Nat :=
  let e0 := min (start + cs) text.length
  if e0 < text.length then
    let ss := max (e0 - ov) (start + cs / 2)
    romeBreakScan text ss e0 [delimPeriod, delimBang, delimQuestion, delimBlank]
  else e0

/-- The `while start < text_length` loop of
`AWSHistoryRomeProcessor.create_text_chunks`; its start update is
`start = max(end - self.chunk_overlap, start + 1)`. -/
def chunkLoopRome {M : Type} (cs ov : Nat) (text : List Char) (m : M) :
    Nat → Nat → Nat → List (Chunk M) → Option (List (Chunk M))
  | 0, start, _, acc => if start < text.length then none else some acc
  | fuel + 1, start, cnt, acc =>
    if start < text.length then
      let e := romeWindowEnd cs ov text start
      let ct := pyStrip (pySlice text start e)
      if ct.isEmpty then
        chunkLoopRome cs ov text m fuel (max (e - ov) (start + 1)) cnt acc
      else
        chunkLoopRome cs ov text m fuel (max (e - ov) (start + 1)) (cnt + 1)
          (acc ++ [⟨ct, cnt, 0, ct.length, m⟩])
    else some acc

/-- `AWSHistoryRomeProcessor.create_text_chunks` (fuel-indexed). -/
def chunkTextRome {M : Type} (cs ov fuel : Nat) (text : List Char) (m : M) :
    Option (List (Chunk M)) :=
  if text.length ≤ cs then some [⟨text, 0, 1, text.length, m⟩]
  else (chunkLoopRome cs ov text m fuel 0 0 []).map backfillTotals

/-- `AWSTranscriptProcessor.create_text_chunks` boundary search: like the
Rome variant but the hit counts only when `pos > search_start` (strictly). -/
def threeFBreakScan (text : List Char) (ss e : Nat) : List (List Char) → Nat
  | [] => e
  | d :: ds =>
      let pos := pyRfind d text ss e
      if (ss : Int) < pos then (pos + (d.length : Int)).toNat else threeFBreakScan text ss e ds

/-- Window end for `AWSTranscriptProcessor.create_text_chunks`; the backward
search range is `max(end - 150, start + chunk_size // 2)` with a literal 150. -/
def threeFWindowEnd (cs : Nat) (text : List Char) (start : Nat) : Nat :=
  let e0 := min (start + cs) text.length
  if e0 < text.length then
    let ss := max (e0 - 150) (start + cs / 2)
    threeFBreakScan text ss e0 [delimPeriod, delimBang, delimQuestion, delimBlank]
  else e0

/-- The `while start < text_length and chunk_index < max_chunks` loop of
`AWSTranscriptProcessor.create_text_chunks`, with the forward-progress fix:
`new_start = end - chunk_overlap; if new_start <= start: new_start = start +
chunk_size // 2`. -/
def chunkLoop3F {M : Type} (cs ov mc : Nat) (text : List Char) (m : M) :
    Nat → Nat → Nat → List (Chunk M) → Option (List (Chunk M))
  | 0, start, cnt, acc => if start < text.length ∧ cnt < mc then none else some acc
  | fuel + 1, start, cnt, acc =>
    if start < text.length ∧ cnt < mc then
      let e := threeFWindowEnd cs text start
      let ct := pyStrip (pySlice text start e)
      let ns0 := e - ov
      let ns := if ns0 ≤ start then start + cs / 2 else ns0
      if ct.isEmpty then
        chunkLoop3F cs ov mc text m fuel ns cnt acc
      else
        chunkLoop3F cs ov mc text m fuel ns (cnt + 1)
          (acc ++ [⟨ct, cnt, 0, ct.length, m⟩])
    else some acc

/-- `AWSTranscriptProcessor.create_text_chunks` (fuel-indexed); `mc` is the
`max_chunks = 50` safety limit, kept as a parameter. -/
def createTextChunks3F {M : Type} (cs ov mc fuel : Nat) (text : List Char) (m : M) :
    Option (List (Chunk M)) :=
  if text.length ≤ cs then some [⟨text, 0, 1, text.length, m⟩]
  else (chunkLoop3F cs ov mc text m fuel 0 0 []).map backfillTotals

/-- The success/failure outcome that `process_single_episode` reports for a
source, given the chunker's result and whether the upload succeeded:
`if not chunks: return False` and otherwise the upload's status is returned. -/
def processReportsSuccess {M : Type} (chunksRes : Option (List (Chunk M)))
    (uploadOk : Bool) : Option Bool :=
  chunksRes.map (fun cs => if cs.isEmpty then false else uploadOk)

/-! ### Identity assignment and upsert protocol

Only the metadata fields that the uploaders read are modelled:
`upload_chunks_to_qdrant` in the Rome processor reads
`chunk['episode_number']`, `chunk['chunk_index']` and `chunk['source_name']`;
`processed_date` is carried along because it is the payload field that
changes between two runs over an unchanged source.  Vectors are abstracted
to a type parameter `V` (their float values play no role in any claim), and
`uuid.uuid5` with its fixed namespace is abstracted to an arbitrary function
`u5 : String → String`; the only property of `uuid5` the code relies on is
that it is a function of the name string. -/

/-- The episode metadata fields of the Rome processor that the uploader and
the idempotence arguments depend on. -/
structure RomeMeta where
  sourceName : String
  episodeNumber : String
  processedDate : String
deriving DecidableEq, Repr

def usep : String := "_"

def histRomeTag : String := "history_rome_"

/-- `unique_string = f"history_rome_{chunk['episode_number']}_{chunk['chunk_index']}_{chunk['source_name']}"`
from `AWSHistoryRomeProcessor.upload_chunks_to_qdrant`. -/
def romeUniqueString (c : Chunk RomeMeta) : String :=
  histRomeTag ++ c.meta.episodeNumber ++ usep ++ toString c.chunkIndex ++ usep
    ++ c.meta.sourceName

/-- A point sent to the vector store: (identifier, vector, payload). -/
structure QPoint (ι V P : Type) where
  id : ι
  vector : V
  payload : P
deriving DecidableEq, Repr

/-- `AWSHistoryRomeProcessor.upload_chunks_to_qdrant` point construction:
embed every chunk's content, zip, and give each point the id
`uuid5(namespace, unique_string)`; the payload is the whole chunk dict. -/
def uploadChunksRome {V : Type} (u5 : String → String) (embed : List Char → V)
    (chunks : List (Chunk RomeMeta)) : List (QPoint String V (Chunk RomeMeta)) :=
  (chunks.zip (chunks.map (fun c => embed c.content))).map
    (fun cv => ⟨u5 (romeUniqueString cv.1), cv.2, cv.1⟩)

/-- Store-level semantics of `qdrant_client.upsert` for a single point:
a point whose id is already present is replaced in place, otherwise the
point is appended. -/
def upsertPoint {ι V P : Type} [DecidableEq ι] (s : List (QPoint ι V P))
    (p : QPoint ι V P) : List (QPoint ι V P) :=
  if s.any (fun q => decide (q.id = p.id)) then
    s.map (fun q => if q.id = p.id then p else q)
  else s ++ [p]

/-- `qdrant_client.upsert` over a batch of points, in order. -/
def upsertPoints {ι V P : Type} [DecidableEq ι] (s : List (QPoint ι V P))
    (ps : List (QPoint ι V P)) : List (QPoint ι V P) :=
  ps.foldl upsertPoint s

/-- The identifiers currently stored, in store order. -/
def storeIds {ι V P : Type} (s : List (QPoint ι V P)) : List ι :=
  s.map (fun p => p.id)

/-- One Rome-processor ingestion of an episode's chunks into the store:
build the points and upsert them (a single `upsert` call in the source). -/
def ingestRome {V : Type} (u5 : String → String) (embed : List Char → V)
    (s : List (QPoint String V (Chunk RomeMeta))) (chunks : List (Chunk RomeMeta)) :
    List (QPoint String V (Chunk RomeMeta)) :=
  upsertPoints s (uploadChunksRome u5 embed chunks)

/-- Payload used by the Revolutions uploaders: the chunk dict minus
`'content'`. -/
structure ChunkPayload (M : Type) where
  chunkIndex : Nat
  totalChunks : Nat
  contentLength : Nat
  meta : M
deriving DecidableEq, Repr

def stripContent {M : Type} (c : Chunk M) : ChunkPayload M :=
  ⟨c.chunkIndex, c.totalChunks, c.contentLength, c.meta⟩

/-- `RevolutionsDataProcessor.upload_to_qdrant` point construction: embed
each chunk (skipping embedding failures) and use `point_id = len(points) + 1`
— a per-batch counter, not a function of the chunk's identity triple. -/
def uploadToQdrantRev {V M : Type} (embed1 : List Char → Option V)
    (chunks : List (Chunk M)) : List (QPoint Nat V (ChunkPayload M)) :=
  chunks.foldl
    (fun pts c =>
      match embed1 c.content with
      | none => pts
      | some v => pts ++ [⟨pts.length + 1, v, stripContent c⟩]) []

/-- Python `range(0, len(l), bs)` batching: `l[0:bs], l[bs:2*bs], ...`. -/
def toBatches {α : Type} (bs : Nat) (l : List α) : List (List α) :=
  (List.range ((l.length + bs - 1) / bs)).map (fun k => (l.drop (k * bs)).take bs)

/-- `MemoryOptimizedProcessor.upload_chunks_to_qdrant` point construction for
one batch: `point_id = int(time.time() * 1000000) + total_uploaded + j`.
`time.time()` is modelled by the run parameter `nowMicros` (the run's clock
reading in microseconds); any model of the clock makes the id depend on it. -/
def optBatchPoints {V M : Type} (nowMicros totalUploaded : Nat)
    (embB : List (List Char) → List (Option V)) (batch : List (Chunk M)) :
    List (QPoint Nat V (ChunkPayload M)) :=
  (batch.zip (embB (batch.map (fun c => c.content)))).enum.foldl
    (fun pts je =>
      match je.2.2 with
      | none => pts
      | some v => pts ++ [⟨nowMicros + totalUploaded + je.1, v, stripContent je.2.1⟩]) []

/-- The ids produced by one optimized-processor upload over all batches of 5
chunks, threading `total_uploaded` between batches as the source does. -/
def uploadChunksOpt {V M : Type} (nowMicros : Nat)
    (embB : List (List Char) → List (Option V)) (chunks : List (Chunk M)) :
    List (QPoint Nat V (ChunkPayload M)) :=
  ((toBatches 5 chunks).foldl
    (fun acc batch =>
      let pts := optBatchPoints nowMicros acc.2 embB batch
      (acc.1 ++ pts, acc.2 + pts.length)) ([], 0)).1

/-- One optimized-processor ingestion: each batch of 5 chunks is embedded,
turned into points, and upserted, with `total_uploaded` accumulated. -/
def ingestOpt {V M : Type} (nowMicros : Nat)
    (embB : List (List Char) → List (Option V))
    (s : List (QPoint Nat V (ChunkPayload M))) (chunks : List (Chunk M)) :
    List (QPoint Nat V (ChunkPayload M)) :=
  ((toBatches 5 chunks).foldl
    (fun acc batch =>
      let pts := optBatchPoints nowMicros acc.2 embB batch
      (upsertPoints acc.1 pts, acc.2 + pts.length)) (s, 0)).1

/-! ### Reconciliation: duplicate scan, duplicate cleanup, purge

A stored point as seen by the scans, with the payload fields the scan code
reads (`source_name`, `episode_number`, `chunk_index`); the list order is
the order in which `scroll` pagination returns the points (scan order). -/

structure ScanPoint where
  id : Nat
  sourceName : String
  episodeNumber : String
  chunkIndex : Nat
deriving DecidableEq, Repr

def histOfRome : String := "history_of_rome"

/-- The local filter applied while paginating in `find_duplicate_episodes`:
keep points with `payload['source_name'] == 'history_of_rome'`. -/
def romePointsFilter (pts : List ScanPoint) : List ScanPoint :=
  pts.filter (fun p => decide (p.sourceName = histOfRome))

/-- Grouping key `f"{episode_num}_{chunk_index}"`. -/
def episodeKey (p : ScanPoint) : String :=
  p.episodeNumber ++ usep ++ toString p.chunkIndex

/-- Append `pid` to the group of `k`, creating the group at the end when `k`
is new — exactly the insertion-ordered dict update
`episode_chunks.setdefault(key, []).append(point.id)` shape used in
`find_duplicate_episodes`. -/
def addToGroups (gs : List (String × List Nat)) (k : String) (pid : Nat) :
    List (String × List Nat) :=
  if gs.any (fun g => decide (g.1 = k)) then
    gs.map (fun g => if g.1 = k then (g.1, g.2 ++ [pid]) else g)
  else gs ++ [(k, [pid])]

/-- Group all scanned points by `episodeKey`, in scan order. -/
def groupPointsByKey (pts : List ScanPoint) : List (String × List Nat) :=
  pts.foldl (fun gs p => addToGroups gs (episodeKey p) p.id) []

/-- `AWSHistoryRomeProcessor.find_duplicate_episodes`: group the
History-of-Rome points by `(episode_number, chunk_index)` key and keep the
groups with more than one point. -/
def findDuplicateEpisodes (pts : List ScanPoint) : List (String × List Nat) :=
  (groupPointsByKey (romePointsFilter pts)).filter (fun g => decide (1 < g.2.length))

/-- The optional episode filter of `clean_duplicate_episodes`
(`k.split('_')[0] in episode_set`); the `--clean-duplicates` entry point
passes `None`. -/
def filterDupsByEpisodes (eps : Option (List String))
    (dups : List (String × List Nat)) : List (String × List Nat) :=
  match eps with
  | none => dups
  | some l =>
      dups.filter (fun g => l.contains (String.mk (g.1.toList.takeWhile (fun c => !(c = '_')))))

/-- `points_to_delete`: for every duplicate group keep the first id and mark
`point_ids[1:]` for deletion, in group order. -/
def pointsToDelete (dups : List (String × List Nat)) : List Nat :=
  (dups.map (fun g => g.2.tail)).flatten

/-- Store effect of one `qdrant_client.delete(points_selector=ids)` call. -/
def deleteIdsBatch (s : List ScanPoint) (ids : List Nat) : List ScanPoint :=
  s.filter (fun p => !(ids.contains p.id))

/-- Store effect of `AWSHistoryRomeProcessor.clean_duplicate_episodes`:
find the duplicates, optionally filter by episode, and delete the marked ids
in batches of 100. -/
def cleanDuplicateEpisodes (eps : Option (List String)) (pts : List ScanPoint) :
    List ScanPoint :=
  (toBatches 100 (pointsToDelete (filterDupsByEpisodes eps (findDuplicateEpisodes pts)))).foldl
    deleteIdsBatch pts

/-- Store effect of `AWSHistoryRomeProcessor.delete_all_podcast_data`:
collect every point whose `source_name` matches and delete the collected ids
in batches of 100. -/
def deleteAllPodcastData (podcastName : String) (pts : List ScanPoint) :
    List ScanPoint :=
  (toBatches 100 ((pts.filter (fun p => decide (p.sourceName = podcastName))).map
    (fun p => p.id))).foldl deleteIdsBatch pts

def tokenDeleteAllRome : String := "DELETE ALL ROME"

/-- The `--delete-all-rome` path of `main`: read the typed confirmation, and
unless it is exactly `'DELETE ALL ROME'` cancel without touching the store;
the returned flag records whether the deletion executed. -/
def runDeleteAllRome (confirm : String) (pts : List ScanPoint) :
    List ScanPoint × Bool :=
  if confirm ≠ tokenDeleteAllRome then (pts, false)
  else (deleteAllPodcastData histOfRome pts, true)

/-- `AWSHistoryRomeProcessor.check_episode_already_processed`: the limit-1
filtered scroll either returns points or raises; any exception is caught,
a warning is logged and `False` is returned. -/
def checkEpisodeAlreadyProcessed (q : Except String (List ScanPoint)) : Bool :=
  match q with
  | Except.ok pts => decide (0 < pts.length)
  | Except.error _ => false

/-- The skip decision in `process_single_episode`:
`if not force_reprocess and self.check_episode_already_processed(...)`. -/
def episodeSkipped (forceReprocess : Bool) (q : Except String (List ScanPoint)) :
    Bool :=
  !forceReprocess && checkEpisodeAlreadyProcessed q

/-- A 6-character delimiter-free text; with `chunk_size = 4`,
`chunk_overlap = 2` it traps `chunk_text`'s loop (the same trap occurs with
the shipped 1000/200 configuration on any delimiter-free text longer than
1000 characters, with `start` stuck at `len(text) - 200`). -/
def revStuckText : List Char := List.replicate 6 'a'

/-- The C9 scenario text: 2400 characters whose only sentence delimiter is
the period-space at index 1050. -/
def snapScenarioText : List Char :=
  List.replicate 1050 'a' ++ '.' :: ' ' :: List.replicate 1348 'a'

/-- A 10-character delimiter-free text; with `chunk_size = 4`,
`chunk_overlap = 2`, `max_chunks = 3` the 3files chunker hits its cap on it. -/
def capText : List Char := List.replicate 10 'a'

/-! ### Theorems -/

/-- C10: when the limit-1 store query inside the already-processed check
raises, `check_episode_already_processed` swallows the exception and returns
`False`, so the episode is treated as not yet processed: it is not skipped
and the run continues into reprocessing rather than aborting. -/
theorem check_already_processed_fails_open (msg : String) (force : Bool) :
    checkEpisodeAlreadyProcessed (Except.error msg) = false ∧
    episodeSkipped force (Except.error msg) = false := by
  refine ⟨rfl, ?_⟩
  cases force <;> rfl

/-- C5: for the full-corpus purge, a typed confirmation that is not exactly
`'DELETE ALL ROME'` cancels the operation with the store unchanged and no
deletion flag, and the deletion executes only when the confirmation matches
the token exactly. -/
theorem purge_requires_exact_confirmation (confirm : String) (pts : List ScanPoint) :
    (confirm ≠ tokenDeleteAllRome → runDeleteAllRome confirm pts = (pts, false)) ∧
    ((runDeleteAllRome confirm pts).2 = true → confirm = tokenDeleteAllRome) := by
  constructor
  · intro h
    simp [runDeleteAllRome, h]
  · intro h
    by_cases hc : confirm = tokenDeleteAllRome
    · exact hc
    · simp [runDeleteAllRome, hc] at h

/-- Witness for C5 at a concrete mismatching confirmation and store. -/
theorem purge_requires_exact_confirmation_witness :
    (("delete it all") ≠ tokenDeleteAllRome) ∧
    runDeleteAllRome ("delete it all") [⟨1, histOfRome, ("003a"), 0⟩] =
      ([⟨1, histOfRome, ("003a"), 0⟩], false) :=
  ⟨by decide,
    (purge_requires_exact_confirmation ("delete it all")
      [⟨1, histOfRome, ("003a"), 0⟩]).1 (by decide)⟩

lemma chunkLoopRev_stuck : ∀ (fuel cnt : Nat) (acc : List (Chunk Unit)),
    chunkLoopRev 4 2 revStuckText () fuel 4 cnt acc = none := by
  intro fuel
  induction fuel with
  | zero => intro cnt acc; rfl
  | succ f ih =>
    intro cnt acc
    rw [show chunkLoopRev 4 2 revStuckText () (f + 1) 4 cnt acc =
        chunkLoopRev 4 2 revStuckText () f 4 (cnt + 1)
          (acc ++ [⟨chars ("aa"), cnt, 0, 2, ()⟩]) from rfl]
    exact ih (cnt + 1) _

/-- C3: refuted on `RevolutionsDataProcessor.chunk_text` (cited by the
claim): the loop has no forward-progress guard and no `max_chunks` cap at
all, and on the 6-character delimiter-free text with `chunk_size = 4`,
`chunk_overlap = 2` it never terminates — `start` reaches the fixed point
`len(text) - chunk_overlap = 4` and every further iteration re-emits the
final window, so no iteration bound suffices. -/
theorem chunk_text_rev_nonterminating : ∀ fuel : Nat,
    chunkTextRev (M := Unit) 4 2 fuel revStuckText () = none := by
  intro fuel
  match fuel with
  | 0 => rfl
  | 1 => rfl
  | f + 2 =>
    show (chunkLoopRev 4 2 revStuckText () (f + 2) 0 0 []).map backfillTotals = none
    rw [show chunkLoopRev 4 2 revStuckText () (f + 2) 0 0 [] =
        chunkLoopRev 4 2 revStuckText () f 4 2
          [⟨chars ("aaaa"), 0, 0, 4, ()⟩, ⟨chars ("aaaa"), 1, 0, 4, ()⟩] from rfl]
    rw [chunkLoopRev_stuck]
    rfl

lemma snapScenarioText_length : snapScenarioText.length = 2400 := by
  unfold snapScenarioText
  rw [List.length_append, List.length_replicate, List.length_cons, List.length_cons,
    List.length_replicate]

lemma subMatchesAt_cons_of_ne {c x : Char} (h : ¬ (c = x)) (sub rest : List Char) :
    subMatchesAt (c :: sub) (x :: rest) = false := by
  simp only [subMatchesAt, decide_eq_false h, Bool.false_and]

lemma subOccs_cons_of_head_ne {c x : Char} (h : ¬ (c = x)) (sub rest : List Char) (i : Nat) :
    subOccs (c :: sub) (x :: rest) i = subOccs (c :: sub) rest (i + 1) := by
  simp [subOccs, subMatchesAt_cons_of_ne h]

lemma subOccs_two_nil (c : Char) :
    ∀ (s : List Char) (i : Nat), (∀ x ∈ s, ¬ (c = x)) → subOccs [c, ' '] s i = [] := by
  intro s
  induction s with
  | nil => intro i _; rfl
  | cons x rest ih =>
    intro i hx
    rw [subOccs_cons_of_head_ne (hx x (List.mem_cons_self x rest))]
    exact ih (i + 1) (fun y hy => hx y (List.mem_cons_of_mem x hy))

lemma subOccs_period_run :
    ∀ (m i k : Nat),
      subOccs delimPeriod (List.replicate m 'a' ++ '.' :: ' ' :: List.replicate k 'a') i
        = [m + i] := by
  intro m
  induction m with
  | zero =>
    intro i k
    have hrest : subOccs ['.', ' '] (' ' :: List.replicate k 'a') (i + 1) = [] := by
      rw [subOccs_cons_of_head_ne (by decide : ¬ ('.' = ' '))]
      apply subOccs_two_nil
      intro x hx
      rw [List.eq_of_mem_replicate hx]
      decide
    show subOccs ['.', ' '] ('.' :: ' ' :: List.replicate k 'a') i = [0 + i]
    have hm : subMatchesAt ['.', ' '] ('.' :: ' ' :: List.replicate k 'a') = true := by
      simp [subMatchesAt]
    rw [show subOccs ['.', ' '] ('.' :: ' ' :: List.replicate k 'a') i
        = (if subMatchesAt ['.', ' '] ('.' :: ' ' :: List.replicate k 'a') then [i] else [])
          ++ subOccs ['.', ' '] (' ' :: List.replicate k 'a') (i + 1) from rfl]
    rw [hm, hrest]
    simp
  | succ m ih =>
    intro i k
    show subOccs ['.', ' '] ('a' :: (List.replicate m 'a' ++ '.' :: ' ' :: List.replicate k 'a')) i
      = [m + 1 + i]
    rw [subOccs_cons_of_head_ne (by decide : ¬ ('.' = 'a'))]
    rw [show subOccs ['.', ' '] (List.replicate m 'a' ++ '.' :: ' ' :: List.replicate k 'a') (i + 1)
        = [m + (i + 1)] from ih (i + 1) k]
    congr 1
    omega

lemma pyRfind_eq_neg_one (sub s : List Char) (lo hi : Nat)
    (h : ∀ i ∈ subOccs sub s 0, ¬ (lo ≤ i ∧ i + sub.length ≤ min hi s.length)) :
    pyRfind sub s lo hi = -1 := by
  unfold pyRfind
  have hf : (subOccs sub s 0).filter
      (fun i => decide (lo ≤ i) && decide (i + sub.length ≤ min hi s.length)) = [] := by
    rw [List.filter_eq_nil_iff]
    intro a ha
    simp only [Bool.and_eq_true, decide_eq_true_eq]
    exact h a ha
  rw [hf]
  rfl

lemma rfind_period_snap : pyRfind delimPeriod snapScenarioText 800 1000 = -1 := by
  apply pyRfind_eq_neg_one
  intro i hi
  rw [show snapScenarioText
      = List.replicate 1050 'a' ++ '.' :: ' ' :: List.replicate 1348 'a' from rfl] at hi
  rw [subOccs_period_run 1050 0 1348] at hi
  simp at hi
  subst hi
  rw [snapScenarioText_length, show delimPeriod.length = 2 from rfl]
  norm_num

lemma no_c_in_snap (c : Char) (h1 : ¬ (c = 'a')) (h2 : ¬ (c = '.')) (h3 : ¬ (c = ' ')) :
    ∀ x ∈ snapScenarioText, ¬ (c = x) := by
  intro x hx
  rw [show snapScenarioText
      = List.replicate 1050 'a' ++ '.' :: ' ' :: List.replicate 1348 'a' from rfl] at hx
  rcases List.mem_append.mp hx with h | h
  · rw [List.eq_of_mem_replicate h]; exact h1
  · rcases List.mem_cons.mp h with h | h
    · rw [h]; exact h2
    · rcases List.mem_cons.mp h with h | h
      · rw [h]; exact h3
      · rw [List.eq_of_mem_replicate h]; exact h1

lemma rfind_bang_snap : pyRfind delimBang snapScenarioText 800 1000 = -1 := by
  apply pyRfind_eq_neg_one
  intro i hi
  rw [show delimBang = ['!', ' '] from rfl] at hi
  rw [subOccs_two_nil '!' snapScenarioText 0
    (no_c_in_snap '!' (by decide) (by decide) (by decide))] at hi
  exact absurd hi (List.not_mem_nil i)

lemma rfind_question_snap : pyRfind delimQuestion snapScenarioText 800 1000 = -1 := by
  apply pyRfind_eq_neg_one
  intro i hi
  rw [show delimQuestion = ['?', ' '] from rfl] at hi
  rw [subOccs_two_nil '?' snapScenarioText 0
    (no_c_in_snap '?' (by decide) (by decide) (by decide))] at hi
  exact absurd hi (List.not_mem_nil i)

lemma revSentenceEnd_snap : revSentenceEnd snapScenarioText 800 1000 = -1 := by
  unfold revSentenceEnd
  simp only [List.foldl]
  rw [rfind_period_snap, rfind_bang_snap, rfind_question_snap]
  norm_num

lemma revWindowEnd_snap : revWindowEnd 1000 200 snapScenarioText 0 = 1000 := by
  unfold revWindowEnd
  rw [snapScenarioText_length]
  norm_num
  rw [revSentenceEnd_snap]
  decide

lemma dropWhile_replicate_a (n : Nat) :
    List.dropWhile pyIsSpace (List.replicate n 'a') = List.replicate n 'a' := by
  cases n with
  | zero => rfl
  | succ n =>
    rw [List.replicate_succ, List.dropWhile_cons]
    simp [pyIsSpace]

lemma pyStrip_replicate_a (n : Nat) :
    pyStrip (List.replicate n 'a') = List.replicate n 'a' := by
  unfold pyStrip
  rw [dropWhile_replicate_a, List.reverse_replicate, dropWhile_replicate_a,
    List.reverse_replicate]

lemma slice_snap_first : pySlice snapScenarioText 0 1000 = List.replicate 1000 'a' := by
  unfold pySlice
  rw [List.drop_zero,
    show snapScenarioText
      = List.replicate 1050 'a' ++ '.' :: ' ' :: List.replicate 1348 'a' from rfl,
    List.take_append_of_le_length
      (by rw [List.length_replicate]; norm_num : (1000 : Nat) ≤ (List.replicate 1050 'a').length),
    List.take_replicate]
  norm_num

lemma chunkEmitRev_snap_one :
    chunkEmitRev (M := Unit) 1000 200 snapScenarioText () 1 0 0 [] =
      [⟨List.replicate 1000 'a', 0, 0, 1000, ()⟩] := by
  show chunkEmitRev (M := Unit) 1000 200 snapScenarioText () (0 + 1) 0 0 [] = _
  have hlt : 0 < snapScenarioText.length := by rw [snapScenarioText_length]; norm_num
  have hemp : (List.replicate 1000 'a').isEmpty = false := by decide
  simp only [chunkEmitRev, if_pos hlt, revWindowEnd_snap, slice_snap_first,
    pyStrip_replicate_a, hemp, Bool.false_eq_true, if_false, List.nil_append,
    List.length_replicate]

lemma chunkEmitRev_extends_acc {M : Type} (cs ov : Nat) (text : List Char) (m : M) :
    ∀ (fuel start cnt : Nat) (acc : List (Chunk M)),
      ∃ l, chunkEmitRev cs ov text m fuel start cnt acc = acc ++ l := by
  intro fuel
  induction fuel with
  | zero => intro start cnt acc; exact ⟨[], (List.append_nil acc).symm⟩
  | succ f ih =>
    intro start cnt acc
    by_cases h : start < text.length
    · simp only [chunkEmitRev, if_pos h]
      by_cases hct : (pyStrip (pySlice text start (revWindowEnd cs ov text start))).isEmpty
      · simp only [hct, if_true]
        exact ih _ cnt acc
      · simp only [hct, Bool.false_eq_true, if_false]
        obtain ⟨l, hl⟩ := ih (revWindowEnd cs ov text start - ov) (cnt + 1)
          (acc ++ [⟨pyStrip (pySlice text start (revWindowEnd cs ov text start)), cnt, 0,
            (pyStrip (pySlice text start (revWindowEnd cs ov text start))).length, m⟩])
        exact ⟨_, by rw [hl, List.append_assoc]⟩
    · simp only [chunkEmitRev, if_neg h]
      exact ⟨[], (List.append_nil acc).symm⟩

/-- C9 counterexample: on the 2400-character text whose only period-space
sits at index 1050, with `chunk_size = 1000`, `chunk_overlap = 200`, the
first segment emitted by `chunk_text` does NOT extend to or past the
delimiter near 1050: the backward search only looks inside
`[end - overlap, end) = [800, 1000)` and can never move the window end
forward. -/
theorem first_chunk_not_snapped_cex :
    ((chunkEmitRev (M := Unit) 1000 200 snapScenarioText () 1 0 0 []).head?.map
      (fun c => decide (1050 ≤ c.contentLength))) = some false := by
  rw [chunkEmitRev_snap_one]
  rfl

/-- C9 amended: on the 2400-character scenario text the first emitted
segment is exactly `text[0:1000]` — it ends at exactly character 1000,
whatever iteration budget the loop is given. -/
theorem first_chunk_ends_at_1000 : ∀ fuel : Nat,
    (chunkEmitRev (M := Unit) 1000 200 snapScenarioText () (fuel + 1) 0 0 []).head?
      = some ⟨List.replicate 1000 'a', 0, 0, 1000, ()⟩ := by
  intro fuel
  have hlt : 0 < snapScenarioText.length := by rw [snapScenarioText_length]; norm_num
  have hemp : (List.replicate 1000 'a').isEmpty = false := by decide
  simp only [chunkEmitRev, if_pos hlt, revWindowEnd_snap, slice_snap_first,
    pyStrip_replicate_a, hemp, Bool.false_eq_true, if_false, List.nil_append,
    List.length_replicate]
  obtain ⟨l, hl⟩ := chunkEmitRev_extends_acc (M := Unit) 1000 200 snapScenarioText () fuel
    (1000 - 200) 1 [⟨List.replicate 1000 'a', 0, 0, 1000, ()⟩]
  rw [hl]
  rfl

lemma backfillTotals_all {M : Type} (l : List (Chunk M)) :
    (backfillTotals l).all (fun c => c.totalChunks == (backfillTotals l).length) = true := by
  simp [backfillTotals, List.all_eq_true, List.mem_map]

/-- C7: whenever `chunk_text` (Revolutions) or `create_text_chunks` (Rome)
returns a chunk list, every chunk's `total_chunks` equals the number of
chunks actually produced — the final backfilled count, with no partial or
stale values. -/
theorem total_chunks_backfill_consistent {M : Type} (cs ov fuel : Nat)
    (text : List Char) (m : M) (out : List (Chunk M)) :
    (chunkTextRev cs ov fuel text m = some out →
      out.all (fun c => c.totalChunks == out.length) = true) ∧
    (chunkTextRome cs ov fuel text m = some out →
      out.all (fun c => c.totalChunks == out.length) = true) := by
  constructor
  · intro h
    unfold chunkTextRev at h
    by_cases hle : text.length ≤ cs
    · rw [if_pos hle] at h
      obtain rfl : [(⟨text, 0, 1, text.length, m⟩ : Chunk M)] = out := Option.some.inj h
      simp
    · rw [if_neg hle] at h
      obtain ⟨a, -, rfl⟩ := Option.map_eq_some'.mp h
      exact backfillTotals_all a
  · intro h
    unfold chunkTextRome at h
    by_cases hle : text.length ≤ cs
    · rw [if_pos hle] at h
      obtain rfl : [(⟨text, 0, 1, text.length, m⟩ : Chunk M)] = out := Option.some.inj h
      simp
    · rw [if_neg hle] at h
      obtain ⟨a, -, rfl⟩ := Option.map_eq_some'.mp h
      exact backfillTotals_all a

/-- Witness for C7: a concrete Rome-chunker run of a 6-character text with
`chunk_size = 4`, `chunk_overlap = 2` produces 4 chunks, each carrying
`total_chunks = 4`. -/
theorem total_chunks_backfill_consistent_witness :
    chunkTextRome (M := Unit) 4 2 100 (chars ("abcdef")) () =
      some ((chunkTextRome (M := Unit) 4 2 100 (chars ("abcdef")) ()).getD []) ∧
    ((chunkTextRome (M := Unit) 4 2 100 (chars ("abcdef")) ()).getD []).all
      (fun c => c.totalChunks ==
        ((chunkTextRome (M := Unit) 4 2 100 (chars ("abcdef")) ()).getD []).length) = true :=
  ⟨rfl,
    (total_chunks_backfill_consistent 4 2 100 (chars ("abcdef")) ()
      ((chunkTextRome (M := Unit) 4 2 100 (chars ("abcdef")) ()).getD [])).2 rfl⟩

/-- C8: any text no longer than `chunk_size` gives exactly one segment whose
content is the whole text, with `chunk_index = 0`, `total_chunks = 1` and
`content_length = len(text)`, in both the Revolutions and Rome chunkers. -/
theorem small_text_single_chunk {M : Type} (cs ov fuel : Nat) (text : List Char) (m : M)
    (h : text.length ≤ cs) :
    chunkTextRev cs ov fuel text m = some [⟨text, 0, 1, text.length, m⟩] ∧
    chunkTextRome cs ov fuel text m = some [⟨text, 0, 1, text.length, m⟩] :=
  ⟨by unfold chunkTextRev; rw [if_pos h], by unfold chunkTextRome; rw [if_pos h]⟩

/-- Witness for C8: a 5-character text with `chunk_size = 1000` (the spec
scenario, scaled) gives the single whole-text segment in both chunkers. -/
theorem small_text_single_chunk_witness :
    (chars ("hello")).length ≤ 1000 ∧
    (chunkTextRev (M := Unit) 1000 200 5 (chars ("hello")) () =
        some [⟨chars ("hello"), 0, 1, (chars ("hello")).length, ()⟩] ∧
      chunkTextRome (M := Unit) 1000 200 5 (chars ("hello")) () =
        some [⟨chars ("hello"), 0, 1, (chars ("hello")).length, ()⟩]) :=
  ⟨by decide, small_text_single_chunk 1000 200 5 (chars ("hello")) () (by decide)⟩

lemma uploadChunksRome_eq_map {V : Type} (u5 : String → String) (embed : List Char → V)
    (l : List (Chunk RomeMeta)) :
    uploadChunksRome u5 embed l =
      l.map (fun c => ⟨u5 (romeUniqueString c), embed c.content, c⟩) := by
  induction l with
  | nil => rfl
  | cons c rest ih =>
    show ((c :: rest).zip ((c :: rest).map (fun c => embed c.content))).map _ = _
    rw [List.map_cons, List.zip_cons_cons, List.map_cons, List.map_cons]
    exact congrArg _ ih

/-- C1 amended: in the Rome processor, the identifier of the point built for
the chunk at any position is `uuid5` of the unique string formed from the
chunk's `(episode_number, chunk_index, source_name)` triple alone — the
construction takes no clock, no counter and no randomness, and the id does
not depend on the rest of the batch or on the embedding values.  (The claim
as stated over all three cited uploaders is false: see the counterexample —
`process_revolutions.py` uses the counter `len(points) + 1` and
`process_revolutions_optimized.py` uses `int(time.time() * 1e6) + ...`.) -/
theorem rome_point_ids_deterministic {V : Type} (u5 : String → String)
    (embed : List Char → V) (l : List (Chunk RomeMeta)) (i : Nat) :
    ((uploadChunksRome u5 embed l)[i]?).map QPoint.id =
      (l[i]?).map (fun c => u5 (romeUniqueString c)) := by
  rw [uploadChunksRome_eq_map]
  simp only [List.getElem?_map, Option.map_map]
  exact congrArg (fun f => Option.map f l[i]?) (funext fun c => rfl)

/-- C1 counterexample: the optimized uploader gives the very same chunk two
different identifiers in two runs whose clock readings differ (so the id is
clock-derived, not derived from the identity triple), and the Revolutions
uploader gives segments of two different episodes the same identifier `1`
(the id is a per-batch counter that ignores the triple entirely). -/
theorem point_id_clock_counter_dependent_cex :
    ((uploadChunksOpt (V := Unit) (M := Unit) 1000000
        (fun ts => ts.map (fun _ => some ())) [⟨chars ("hi"), 0, 1, 2, ()⟩]).map
      (fun p => p.id) = [1000000]) ∧
    ((uploadChunksOpt (V := Unit) (M := Unit) 2000000
        (fun ts => ts.map (fun _ => some ())) [⟨chars ("hi"), 0, 1, 2, ()⟩]).map
      (fun p => p.id) = [2000000]) ∧
    ((1000000 : Nat) ≠ 2000000) ∧
    ((uploadToQdrantRev (V := Unit) (M := String) (fun _ => some ())
        [⟨chars ("x"), 0, 1, 1, ("episode 1")⟩]).map (fun p => p.id) = [1]) ∧
    ((uploadToQdrantRev (V := Unit) (M := String) (fun _ => some ())
        [⟨chars ("y"), 0, 1, 1, ("episode 2")⟩]).map (fun p => p.id) = [1]) := by
  exact ⟨rfl, rfl, by decide, rfl, rfl⟩

section UpsertLemmas

variable {ι V P : Type} [DecidableEq ι]

lemma storeIds_upsertPoint (s : List (QPoint ι V P)) (p : QPoint ι V P) :
    storeIds (upsertPoint s p) =
      if p.id ∈ storeIds s then storeIds s else storeIds s ++ [p.id] := by
  unfold upsertPoint storeIds
  by_cases h : s.any (fun q => decide (q.id = p.id))
  · rw [if_pos h]
    have hmem : p.id ∈ s.map (fun p => p.id) := by
      rcases List.any_eq_true.mp h with ⟨q, hq, hq2⟩
      simp only [decide_eq_true_eq] at hq2
      exact hq2 ▸ List.mem_map_of_mem _ hq
    rw [if_pos hmem, List.map_map]
    apply List.map_congr_left
    intro q hq
    by_cases hqq : q.id = p.id
    · simp [hqq]
    · simp [hqq]
  · rw [if_neg h]
    have hmem : p.id ∉ s.map (fun p => p.id) := by
      intro hc
      rcases List.mem_map.mp hc with ⟨q, hq, hq2⟩
      exact h (List.any_eq_true.mpr ⟨q, hq, by simp [hq2]⟩)
    rw [if_neg hmem, List.map_append]
    rfl

lemma mem_storeIds_upsertPoint (s : List (QPoint ι V P)) (p : QPoint ι V P) (a : ι) :
    a ∈ storeIds (upsertPoint s p) ↔ a ∈ storeIds s ∨ a = p.id := by
  rw [storeIds_upsertPoint]
  by_cases h : p.id ∈ storeIds s
  · rw [if_pos h]
    exact ⟨Or.inl, fun hc => hc.elim id (fun he => he ▸ h)⟩
  · rw [if_neg h]
    simp [List.mem_append]

lemma storeIds_upsertPoints_of_subset (ps : List (QPoint ι V P)) :
    ∀ s, (∀ p ∈ ps, p.id ∈ storeIds s) → storeIds (upsertPoints s ps) = storeIds s := by
  induction ps with
  | nil => intro s _; rfl
  | cons p rest ih =>
    intro s h
    have hp : p.id ∈ storeIds s := h p (List.mem_cons_self p rest)
    have hstep : storeIds (upsertPoint s p) = storeIds s := by
      rw [storeIds_upsertPoint, if_pos hp]
    rw [show upsertPoints s (p :: rest) = upsertPoints (upsertPoint s p) rest from rfl]
    rw [ih (upsertPoint s p) (fun q hq => by
      rw [hstep]; exact h q (List.mem_cons_of_mem p hq))]
    exact hstep

lemma mem_storeIds_upsertPoints (ps : List (QPoint ι V P)) :
    ∀ (s : List (QPoint ι V P)) (a : ι),
      a ∈ storeIds (upsertPoints s ps) ↔ a ∈ storeIds s ∨ a ∈ ps.map (fun p => p.id) := by
  induction ps with
  | nil => intro s a; simp [upsertPoints, List.foldl]
  | cons p rest ih =>
    intro s a
    rw [show upsertPoints s (p :: rest) = upsertPoints (upsertPoint s p) rest from rfl]
    rw [ih (upsertPoint s p) a, mem_storeIds_upsertPoint]
    simp [List.mem_cons]
    tauto

end UpsertLemmas

/-- C2 amended: for the Rome processor (which derives point ids with `uuid5`
from the identity triple), re-ingesting a source whose chunks carry the same
identity triples — even if run-dependent payload fields such as
`processed_date` differ — leaves the stored identifier list and the stored
point count exactly as after the first ingestion: upsert-by-id replaces
instead of inserting, so the store does not grow.  (The claim over every
cited uploader is false: the optimized variant's clock-derived ids make the
store grow on re-run, see the counterexample.) -/
theorem rome_reingestion_preserves_store_ids {V : Type} (u5 : String → String)
    (e1 e2 : List Char → V) (s : List (QPoint String V (Chunk RomeMeta)))
    (cs cs' : List (Chunk RomeMeta))
    (h : cs.map romeUniqueString = cs'.map romeUniqueString) :
    storeIds (ingestRome u5 e2 (ingestRome u5 e1 s cs) cs') =
      storeIds (ingestRome u5 e1 s cs) ∧
    (ingestRome u5 e2 (ingestRome u5 e1 s cs) cs').length =
      (ingestRome u5 e1 s cs).length := by
  have hids : ∀ p ∈ uploadChunksRome u5 e2 cs', p.id ∈ storeIds (ingestRome u5 e1 s cs) := by
    intro p hp
    rw [uploadChunksRome_eq_map] at hp
    rcases List.mem_map.mp hp with ⟨c, hc, rfl⟩
    have h1 : romeUniqueString c ∈ cs.map romeUniqueString := by
      rw [h]
      exact List.mem_map_of_mem _ hc
    rcases List.mem_map.mp h1 with ⟨c0, hc0, he⟩
    have h2 : u5 (romeUniqueString c) ∈ (uploadChunksRome u5 e1 cs).map (fun p => p.id) := by
      rw [uploadChunksRome_eq_map, List.map_map]
      exact List.mem_map.mpr ⟨c0, hc0, by simp [he]⟩
    exact (mem_storeIds_upsertPoints _ _ _).mpr (Or.inr h2)
  constructor
  · exact storeIds_upsertPoints_of_subset _ _ hids
  · have hlen := congrArg List.length (storeIds_upsertPoints_of_subset _ _ hids)
    simpa [storeIds] using hlen

/-- Witness for C2: one chunk of episode `001`, re-ingested with a changed
`processed_date`; the identifier list after the second run equals the one
after the first. -/
theorem rome_reingestion_preserves_store_ids_witness :
    ([(⟨chars ("one"), 0, 1, 3, ⟨histOfRome, ("001"), ("2024-01-01")⟩⟩ : Chunk RomeMeta)].map
        romeUniqueString =
      [(⟨chars ("one"), 0, 1, 3, ⟨histOfRome, ("001"), ("2024-06-30")⟩⟩ : Chunk RomeMeta)].map
        romeUniqueString) ∧
    (storeIds (ingestRome (V := Unit) (fun x => x) (fun _ => ())
        (ingestRome (fun x => x) (fun _ => ()) []
          [⟨chars ("one"), 0, 1, 3, ⟨histOfRome, ("001"), ("2024-01-01")⟩⟩])
        [⟨chars ("one"), 0, 1, 3, ⟨histOfRome, ("001"), ("2024-06-30")⟩⟩]) =
      storeIds (ingestRome (fun x => x) (fun _ => ())
        ([] : List (QPoint String Unit (Chunk RomeMeta)))
        [⟨chars ("one"), 0, 1, 3, ⟨histOfRome, ("001"), ("2024-01-01")⟩⟩]) ∧
    (ingestRome (V := Unit) (fun x => x) (fun _ => ())
        (ingestRome (fun x => x) (fun _ => ()) []
          [⟨chars ("one"), 0, 1, 3, ⟨histOfRome, ("001"), ("2024-01-01")⟩⟩])
        [⟨chars ("one"), 0, 1, 3, ⟨histOfRome, ("001"), ("2024-06-30")⟩⟩]).length =
      (ingestRome (fun x => x) (fun _ => ())
        ([] : List (QPoint String Unit (Chunk RomeMeta)))
        [⟨chars ("one"), 0, 1, 3, ⟨histOfRome, ("001"), ("2024-01-01")⟩⟩]).length) :=
  ⟨rfl,
    rome_reingestion_preserves_store_ids (fun x => x) (fun _ => ()) (fun _ => ()) []
      [⟨chars ("one"), 0, 1, 3, ⟨histOfRome, ("001"), ("2024-01-01")⟩⟩]
      [⟨chars ("one"), 0, 1, 3, ⟨histOfRome, ("001"), ("2024-06-30")⟩⟩] rfl⟩

/-- C2 counterexample: the optimized uploader's clock-derived ids make
re-ingesting the same unchanged single-chunk source at a later clock reading
grow the store from 1 point to 2 points instead of replacing. -/
theorem optimized_reingestion_grows_store_cex :
    (ingestOpt (V := Unit) (M := Unit) 1 (fun ts => ts.map (fun _ => some ())) []
      [⟨chars ("hi"), 0, 1, 2, ()⟩]).length = 1 ∧
    (ingestOpt (V := Unit) (M := Unit) 2 (fun ts => ts.map (fun _ => some ()))
      (ingestOpt (V := Unit) (M := Unit) 1 (fun ts => ts.map (fun _ => some ())) []
        [⟨chars ("hi"), 0, 1, 2, ()⟩])
      [⟨chars ("hi"), 0, 1, 2, ()⟩]).length = 2 := by
  exact ⟨rfl, rfl⟩

lemma flatten_batch_ranges {α : Type} (bs : Nat) (l : List α) :
    ∀ m, ((List.range m).map (fun k => (l.drop (k * bs)).take bs)).flatten
      = l.take (m * bs) := by
  intro m
  induction m with
  | zero => simp
  | succ m ih =>
    rw [List.range_succ, List.map_append, List.flatten_append]
    rw [ih]
    simp only [List.map_cons, List.map_nil, List.flatten_cons, List.flatten_nil,
      List.append_nil]
    rw [← List.take_add]
    congr 1
    ring

lemma toBatches_flatten_100 (l : List Nat) : (toBatches 100 l).flatten = l := by
  unfold toBatches
  rw [flatten_batch_ranges]
  apply List.take_of_length_le
  omega

lemma toBatches_length_le_100 (l : List Nat) :
    ∀ b ∈ toBatches 100 l, b.length ≤ 100 := by
  intro b hb
  unfold toBatches at hb
  rcases List.mem_map.mp hb with ⟨k, -, rfl⟩
  calc ((l.drop (k * 100)).take 100).length ≤ 100 := by
        rw [List.length_take]
        omega

lemma foldl_deleteIdsBatch (batches : List (List Nat)) :
    ∀ s : List ScanPoint,
      batches.foldl deleteIdsBatch s = s.filter (fun p => !(batches.flatten.contains p.id)) := by
  induction batches with
  | nil =>
    intro s
    simp [deleteIdsBatch, List.filter_eq_self]
  | cons b bs ih =>
    intro s
    rw [show (b :: bs).foldl deleteIdsBatch s = bs.foldl deleteIdsBatch (deleteIdsBatch s b) from
      rfl]
    rw [ih (deleteIdsBatch s b)]
    unfold deleteIdsBatch
    rw [List.filter_filter]
    apply List.filter_congr
    intro p _
    rw [List.flatten_cons]
    cases hb : b.contains p.id <;> cases hbs : bs.flatten.contains p.id <;>
      simp_all [List.mem_flatten]

lemma cleanup_none_eq_filter (pts : List ScanPoint) :
    cleanDuplicateEpisodes none pts =
      pts.filter
        (fun p => !((pointsToDelete (findDuplicateEpisodes pts)).contains p.id)) := by
  unfold cleanDuplicateEpisodes
  rw [show filterDupsByEpisodes none (findDuplicateEpisodes pts)
      = findDuplicateEpisodes pts from rfl]
  rw [foldl_deleteIdsBatch]
  rw [toBatches_flatten_100]

lemma addToGroups_keys (gs : List (String × List Nat)) (k : String) (pid : Nat) :
    (addToGroups gs k pid).map Prod.fst =
      if gs.any (fun g => decide (g.1 = k)) then gs.map Prod.fst
      else gs.map Prod.fst ++ [k] := by
  unfold addToGroups
  by_cases h : gs.any (fun g => decide (g.1 = k))
  · rw [if_pos h, if_pos h, List.map_map]
    apply List.map_congr_left
    intro g _
    by_cases hg : g.1 = k <;> simp [hg]
  · rw [if_neg h, if_neg h, List.map_append]
    rfl

lemma addToGroups_keys_nodup (gs : List (String × List Nat)) (k : String) (pid : Nat)
    (h : (gs.map Prod.fst).Nodup) : ((addToGroups gs k pid).map Prod.fst).Nodup := by
  rw [addToGroups_keys]
  by_cases hany : gs.any (fun g => decide (g.1 = k))
  · rwa [if_pos hany]
  · rw [if_neg hany]
    rw [List.nodup_append]
    refine ⟨h, List.nodup_singleton k, ?_⟩
    intro a ha hk
    rcases List.mem_singleton.mp hk with rfl
    rcases List.mem_map.mp ha with ⟨g, hg, hg1⟩
    exact hany (List.any_eq_true.mpr ⟨g, hg, by simp [hg1]⟩)

lemma mem_keys_iff (gs : List (String × List Nat)) (k : String) :
    k ∈ gs.map Prod.fst ↔ ∃ g0, (k, g0) ∈ gs := by
  constructor
  · intro h
    rcases List.mem_map.mp h with ⟨g, hg, hg1⟩
    exact ⟨g.2, by rwa [← hg1, Prod.mk.eta]⟩
  · rintro ⟨g0, hg⟩
    exact List.mem_map.mpr ⟨(k, g0), hg, rfl⟩

lemma any_key_iff (gs : List (String × List Nat)) (k : String) :
    gs.any (fun g => decide (g.1 = k)) = true ↔ ∃ g0, (k, g0) ∈ gs := by
  rw [List.any_eq_true]
  constructor
  · rintro ⟨g, hg, hk⟩
    simp only [decide_eq_true_eq] at hk
    exact ⟨g.2, by rwa [← hk, Prod.mk.eta]⟩
  · rintro ⟨g0, hg⟩
    exact ⟨(k, g0), hg, by simp⟩


lemma addToGroups_mem_self (gs : List (String × List Nat)) (k' : String) (pid : Nat)
    (g : List Nat) :
    (k', g) ∈ addToGroups gs k' pid ↔
      ((∃ g0, (k', g0) ∈ gs ∧ g = g0 ++ [pid]) ∨ ((¬ ∃ g0, (k', g0) ∈ gs) ∧ g = [pid])) := by
  unfold addToGroups
  by_cases hany : gs.any (fun g => decide (g.1 = k'))
  · rw [if_pos hany]
    have hex : ∃ g0, (k', g0) ∈ gs := (any_key_iff gs k').mp hany
    constructor
    · intro hm
      rcases List.mem_map.mp hm with ⟨e, he, hfe⟩
      by_cases he1 : e.1 = k'
      · rw [if_pos he1] at hfe
        refine Or.inl ⟨e.2, ?_, ?_⟩
        · rw [← he1, Prod.mk.eta]; exact he
        · exact ((Prod.mk.injEq _ _ _ _).mp hfe).2.symm
      · rw [if_neg he1] at hfe
        exact absurd (congrArg Prod.fst hfe) he1
    · rintro (⟨g0, hg0, rfl⟩ | ⟨hne, rfl⟩)
      · exact List.mem_map.mpr ⟨(k', g0), hg0, by simp⟩
      · exact absurd hex hne
  · rw [if_neg hany]
    have hnex : ¬ ∃ g0, (k', g0) ∈ gs := fun hc => hany ((any_key_iff gs k').mpr hc)
    rw [List.mem_append, List.mem_singleton]
    constructor
    · rintro (hm | hm)
      · exact absurd ⟨g, hm⟩ hnex
      · exact Or.inr ⟨hnex, ((Prod.mk.injEq _ _ _ _).mp hm).2⟩
    · rintro (⟨g0, hg0, rfl⟩ | ⟨-, rfl⟩)
      · exact absurd ⟨g0, hg0⟩ hnex
      · exact Or.inr rfl

lemma addToGroups_mem_ne (gs : List (String × List Nat)) (k' : String) (pid : Nat)
    (k : String) (g : List Nat) (hk : ¬ (k = k')) :
    (k, g) ∈ addToGroups gs k' pid ↔ (k, g) ∈ gs := by
  unfold addToGroups
  by_cases hany : gs.any (fun g => decide (g.1 = k'))
  · rw [if_pos hany]
    constructor
    · intro hm
      rcases List.mem_map.mp hm with ⟨e, he, hfe⟩
      by_cases he1 : e.1 = k'
      · rw [if_pos he1] at hfe
        have h1 : e.1 = k := ((Prod.mk.injEq _ _ _ _).mp hfe).1
        exact absurd (by rw [← h1, he1]) hk
      · rw [if_neg he1] at hfe
        rwa [← hfe]
    · intro hm
      refine List.mem_map.mpr ⟨(k, g), hm, ?_⟩
      rw [if_neg hk]
  · rw [if_neg hany, List.mem_append, List.mem_singleton]
    constructor
    · rintro (hm | hm)
      · exact hm
      · exact absurd ((Prod.mk.injEq _ _ _ _).mp hm).1 hk
    · exact Or.inl

lemma groupFold_master (l : List ScanPoint) :
    ∀ gs : List (String × List Nat), (gs.map Prod.fst).Nodup →
      (((l.foldl (fun gs p => addToGroups gs (episodeKey p) p.id) gs).map Prod.fst).Nodup ∧
      ∀ (k : String) (g : List Nat),
        (k, g) ∈ l.foldl (fun gs p => addToGroups gs (episodeKey p) p.id) gs ↔
          ((∃ g0, (k, g0) ∈ gs ∧
              g = g0 ++ (l.filter (fun p => decide (episodeKey p = k))).map (fun p => p.id)) ∨
            ((¬ ∃ g0, (k, g0) ∈ gs) ∧
              g = (l.filter (fun p => decide (episodeKey p = k))).map (fun p => p.id) ∧
              g ≠ []))) := by
  induction l with
  | nil =>
    intro gs hn
    refine ⟨hn, ?_⟩
    intro k g
    simp only [List.foldl_nil, List.filter_nil, List.map_nil, List.append_nil]
    constructor
    · intro hm
      exact Or.inl ⟨g, hm, rfl⟩
    · rintro (⟨g0, hg0, rfl⟩ | ⟨-, hgeq, hne⟩)
      · exact hg0
      · exact absurd hgeq hne
  | cons p rest ih =>
    intro gs hn
    rw [List.foldl_cons]
    obtain ⟨ihn, ihm⟩ := ih (addToGroups gs (episodeKey p) p.id)
      (addToGroups_keys_nodup gs (episodeKey p) p.id hn)
    refine ⟨ihn, ?_⟩
    intro k g
    rw [ihm k g, List.filter_cons]
    by_cases hk : episodeKey p = k
    · subst hk
      have hdk : decide (episodeKey p = episodeKey p) = true := by simp
      rw [hdk]
      simp only [if_true, List.map_cons]
      constructor
      · rintro (⟨g0, hg0, rfl⟩ | ⟨hne, hg, hgne⟩)
        · rw [addToGroups_mem_self] at hg0
          rcases hg0 with ⟨g1, hg1, rfl⟩ | ⟨hne1, rfl⟩
          · exact Or.inl ⟨g1, hg1, by simp⟩
          · exact Or.inr ⟨hne1, by simp, by simp⟩
        · exfalso
          apply hne
          by_cases hex : ∃ g0, (episodeKey p, g0) ∈ gs
          · obtain ⟨g0, hg0⟩ := hex
            exact ⟨g0 ++ [p.id], (addToGroups_mem_self gs (episodeKey p) p.id _).mpr
              (Or.inl ⟨g0, hg0, rfl⟩)⟩
          · exact ⟨[p.id], (addToGroups_mem_self gs (episodeKey p) p.id _).mpr
              (Or.inr ⟨hex, rfl⟩)⟩
      · rintro (⟨g0, hg0, rfl⟩ | ⟨hne, rfl, -⟩)
        · refine Or.inl ⟨g0 ++ [p.id], (addToGroups_mem_self gs (episodeKey p) p.id _).mpr
            (Or.inl ⟨g0, hg0, rfl⟩), ?_⟩
          simp
        · refine Or.inl ⟨[p.id], (addToGroups_mem_self gs (episodeKey p) p.id _).mpr
            (Or.inr ⟨hne, rfl⟩), ?_⟩
          simp
    · have hdk : decide (episodeKey p = k) = false := by simp [hk]
      rw [hdk]
      simp only [Bool.false_eq_true, if_false]
      have hkne : ¬ (k = episodeKey p) := fun hc => hk hc.symm
      simp only [addToGroups_mem_ne gs (episodeKey p) p.id k _ hkne]

lemma groupPointsByKey_mem (l : List ScanPoint) (k : String) (g : List Nat) :
    (k, g) ∈ groupPointsByKey l ↔
      (g = (l.filter (fun p => decide (episodeKey p = k))).map (fun p => p.id) ∧ g ≠ []) := by
  have h := (groupFold_master l [] (by simp)).2 k g
  unfold groupPointsByKey
  rw [h]
  simp

lemma findDuplicateEpisodes_mem (pts : List ScanPoint) (k : String) (g : List Nat) :
    (k, g) ∈ findDuplicateEpisodes pts ↔
      (g = ((romePointsFilter pts).filter
          (fun p => decide (episodeKey p = k))).map (fun p => p.id) ∧
        2 ≤ g.length) := by
  unfold findDuplicateEpisodes
  rw [List.mem_filter, groupPointsByKey_mem]
  constructor
  · rintro ⟨⟨hg, -⟩, hlen⟩
    simp only [decide_eq_true_eq] at hlen
    exact ⟨hg, hlen⟩
  · rintro ⟨hg, hlen⟩
    refine ⟨⟨hg, ?_⟩, by simp; omega⟩
    intro hc
    rw [hc] at hlen
    simp at hlen

lemma mem_pointsToDelete (dups : List (String × List Nat)) (x : Nat) :
    x ∈ pointsToDelete dups ↔ ∃ e ∈ dups, x ∈ e.2.tail := by
  unfold pointsToDelete
  simp only [List.mem_flatten, List.mem_map]
  constructor
  · rintro ⟨l, ⟨e, he, rfl⟩, hx⟩
    exact ⟨e, he, hx⟩
  · rintro ⟨e, he, hx⟩
    exact ⟨e.2.tail, ⟨e, he, rfl⟩, hx⟩


lemma keyFiltered_sublist (pts : List ScanPoint) (k : String) :
    ((romePointsFilter pts).filter (fun p => decide (episodeKey p = k))).Sublist pts :=
  (List.filter_sublist (romePointsFilter pts)).trans (List.filter_sublist pts)

lemma keyFiltered_mem (pts : List ScanPoint) (k : String) (q : ScanPoint)
    (hq : q ∈ (romePointsFilter pts).filter (fun p => decide (episodeKey p = k))) :
    q ∈ pts ∧ q.sourceName = histOfRome ∧ episodeKey q = k := by
  have h1 := List.mem_filter.mp hq
  have h2 := List.mem_filter.mp h1.1
  refine ⟨h2.1, ?_, ?_⟩
  · simpa using h2.2
  · simpa using h1.2

lemma kept_exactly_first (pts : List ScanPoint)
    (hn : (pts.map (fun p => p.id)).Nodup) (k : String) (g : List Nat)
    (hmem : (k, g) ∈ findDuplicateEpisodes pts) :
    ((romePointsFilter pts).filter (fun p => decide (episodeKey p = k))).filter
        (fun p => !((pointsToDelete (findDuplicateEpisodes pts)).contains p.id))
      = ((romePointsFilter pts).filter (fun p => decide (episodeKey p = k))).take 1 := by
  obtain ⟨hg, hlen⟩ := (findDuplicateEpisodes_mem pts k g).mp hmem
  have hinj : ∀ a ∈ pts, ∀ b ∈ pts, a.id = b.id → a = b :=
    fun a ha b hb hab => List.inj_on_of_nodup_map hn ha hb hab
  cases hFc : (romePointsFilter pts).filter (fun p => decide (episodeKey p = k)) with
  | nil => rfl
  | cons f0 F' =>
    rw [hFc] at hg
    have hf0F : f0 ∈ (romePointsFilter pts).filter (fun p => decide (episodeKey p = k)) := by
      rw [hFc]
      exact List.mem_cons_self f0 F'
    have htail_del : ∀ q ∈ F', q.id ∈ pointsToDelete (findDuplicateEpisodes pts) := by
      intro q hq
      rw [mem_pointsToDelete]
      refine ⟨(k, g), hmem, ?_⟩
      rw [hg]
      simp only [List.map_cons, List.tail_cons]
      exact List.mem_map_of_mem _ hq
    have hhead_not_del : f0.id ∉ pointsToDelete (findDuplicateEpisodes pts) := by
      intro hdel
      rcases (mem_pointsToDelete _ _).mp hdel with ⟨⟨k', g'⟩, hmem', hx⟩
      obtain ⟨hg', hlen'⟩ := (findDuplicateEpisodes_mem pts k' g').mp hmem'
      by_cases hkk : k' = k
      · rw [hkk] at hg'
        rw [hg', hFc] at hx
        simp only [List.map_cons, List.tail_cons] at hx
        have hnodupF : ((f0 :: F').map (fun p => p.id)).Nodup := by
          rw [← hFc]
          exact hn.sublist (List.Sublist.map _ (keyFiltered_sublist pts k))
        rw [List.map_cons, List.nodup_cons] at hnodupF
        exact hnodupF.1 hx
      · rw [hg'] at hx
        have hx2 : f0.id ∈
            ((romePointsFilter pts).filter
              (fun p => decide (episodeKey p = k'))).map (fun p => p.id) :=
          List.mem_of_mem_tail hx
        rcases List.mem_map.mp hx2 with ⟨q, hq, hqid⟩
        have hqmem := keyFiltered_mem pts k' q hq
        have hf0mem := keyFiltered_mem pts k f0 hf0F
        have hqf0 : q = f0 := hinj q hqmem.1 f0 hf0mem.1 hqid
        rw [hqf0] at hqmem
        rw [← hqmem.2.2, ← hf0mem.2.2] at hkk
        exact hkk rfl
    rw [List.filter_cons]
    have h1 : (!((pointsToDelete (findDuplicateEpisodes pts)).contains f0.id)) = true := by
      simpa using hhead_not_del
    rw [h1]
    simp only [if_true]
    have h2 : F'.filter
        (fun p => !((pointsToDelete (findDuplicateEpisodes pts)).contains p.id)) = [] := by
      rw [List.filter_eq_nil_iff]
      intro q hq
      simpa using htail_del q hq
    rw [h2, List.take_succ_cons, List.take_zero]

/-- C6: over any store whose point ids are distinct, the duplicate scan
reports exactly the `(episode_number, chunk_index)` groups holding more than
one History-of-Rome point (each reported group being all that group's point
ids in scan order), and the cleanup retains exactly the first point of each
reported group, deleting all the others, issuing the deletions in batches of
at most 100 ids that together cover every marked id. -/
theorem duplicate_scan_and_cleanup_correct (pts : List ScanPoint)
    (hn : (pts.map (fun p => p.id)).Nodup) :
    (∀ (k : String) (g : List Nat), (k, g) ∈ findDuplicateEpisodes pts ↔
        (g = ((romePointsFilter pts).filter
            (fun p => decide (episodeKey p = k))).map (fun p => p.id) ∧
          2 ≤ g.length)) ∧
    (∀ (k : String) (g : List Nat), (k, g) ∈ findDuplicateEpisodes pts →
        (cleanDuplicateEpisodes none pts).filter
            (fun p => decide (p.sourceName = histOfRome) && decide (episodeKey p = k))
          = ((romePointsFilter pts).filter (fun p => decide (episodeKey p = k))).take 1) ∧
    (∀ b ∈ toBatches 100 (pointsToDelete (findDuplicateEpisodes pts)), b.length ≤ 100) ∧
    (toBatches 100 (pointsToDelete (findDuplicateEpisodes pts))).flatten
      = pointsToDelete (findDuplicateEpisodes pts) := by
  refine ⟨findDuplicateEpisodes_mem pts, ?_, toBatches_length_le_100 _, toBatches_flatten_100 _⟩
  intro k g hmem
  rw [cleanup_none_eq_filter]
  rw [← kept_exactly_first pts hn k g hmem]
  unfold romePointsFilter
  simp only [List.filter_filter]
  apply List.filter_congr
  intro p _
  cases hd : (pointsToDelete (findDuplicateEpisodes pts)).contains p.id <;>
    cases hs : decide (p.sourceName = histOfRome) <;>
    cases hk : decide (episodeKey p = k) <;> rfl

/-- Witness for C6: the spec scenario — two points with identical
`(episode_number = "5", chunk_index = 2)` but different ids 10 and 20 are
reported as the single duplicate group `("5_2", [10, 20])`. -/
theorem duplicate_scan_and_cleanup_correct_witness :
    (([⟨10, histOfRome, ("5"), 2⟩, ⟨20, histOfRome, ("5"), 2⟩] : List ScanPoint).map
        (fun p => p.id)).Nodup ∧
    (("5_2", [10, 20]) ∈ findDuplicateEpisodes
        [⟨10, histOfRome, ("5"), 2⟩, ⟨20, histOfRome, ("5"), 2⟩]) :=
  ⟨by decide,
    ((duplicate_scan_and_cleanup_correct
        [⟨10, histOfRome, ("5"), 2⟩, ⟨20, histOfRome, ("5"), 2⟩] (by decide)).1
      ("5_2") [10, 20]).mpr (by decide)⟩


lemma chunkLoop3F_length_le {M : Type} (cs ov mc : Nat) (text : List Char) (m : M) :
    ∀ (fuel start cnt : Nat) (acc : List (Chunk M)) (out : List (Chunk M)),
      acc.length = cnt → cnt ≤ mc →
      chunkLoop3F cs ov mc text m fuel start cnt acc = some out → out.length ≤ mc := by
  intro fuel
  induction fuel with
  | zero =>
    intro start cnt acc out hlen hc h
    rw [show chunkLoop3F cs ov mc text m 0 start cnt acc
        = if start < text.length ∧ cnt < mc then none else some acc from rfl] at h
    by_cases hcond : start < text.length ∧ cnt < mc
    · rw [if_pos hcond] at h
      cases h
    · rw [if_neg hcond] at h
      rw [← Option.some.inj h, hlen]
      exact hc
  | succ f ih =>
    intro start cnt acc out hlen hc h
    have hunf : chunkLoop3F cs ov mc text m (f + 1) start cnt acc =
        if start < text.length ∧ cnt < mc then
          (if (pyStrip (pySlice text start (threeFWindowEnd cs text start))).isEmpty then
            chunkLoop3F cs ov mc text m f
              (if threeFWindowEnd cs text start - ov ≤ start then start + cs / 2
                else threeFWindowEnd cs text start - ov) cnt acc
          else
            chunkLoop3F cs ov mc text m f
              (if threeFWindowEnd cs text start - ov ≤ start then start + cs / 2
                else threeFWindowEnd cs text start - ov) (cnt + 1)
              (acc ++ [⟨pyStrip (pySlice text start (threeFWindowEnd cs text start)), cnt, 0,
                (pyStrip (pySlice text start (threeFWindowEnd cs text start))).length, m⟩]))
        else some acc := rfl
    rw [hunf] at h
    by_cases hcond : start < text.length ∧ cnt < mc
    · rw [if_pos hcond] at h
      by_cases hct : (pyStrip (pySlice text start (threeFWindowEnd cs text start))).isEmpty
      · rw [if_pos hct] at h
        exact ih _ cnt acc out hlen hc h
      · rw [if_neg hct] at h
        refine ih _ (cnt + 1) _ out ?_ ?_ h
        · simp [hlen]
        · omega
    · rw [if_neg hcond] at h
      rw [← Option.some.inj h, hlen]
      exact hc


/-- C4 amended: when `create_text_chunks` (3files) hits its `max_chunks`
cap, it simply stops and returns the first `max_chunks` segments (the output
never exceeds the cap), and `process_single_episode` still reports the
source as successfully processed whenever the (possibly truncated) chunk
list is non-empty and the upload succeeds: the truncation is silent, with no
abort and no failure report.  (The claim as stated — abort and report
failure, never silently truncate — is refuted by the counterexample.) -/
theorem create_text_chunks_cap_truncates {M : Type} (cs ov mc fuel : Nat)
    (text : List Char) (m : M) (out : List (Chunk M)) (h1 : 1 ≤ mc)
    (h2 : createTextChunks3F cs ov mc fuel text m = some out) :
    out.length ≤ mc ∧ (out ≠ [] → processReportsSuccess (some out) true = some true) := by
  constructor
  · unfold createTextChunks3F at h2
    by_cases hle : text.length ≤ cs
    · rw [if_pos hle] at h2
      rw [← Option.some.inj h2]
      simpa using h1
    · rw [if_neg hle] at h2
      obtain ⟨a, ha, rfl⟩ := Option.map_eq_some'.mp h2
      rw [show (backfillTotals a).length = a.length from List.length_map _ _]
      exact chunkLoop3F_length_le cs ov mc text m fuel 0 0 [] a rfl (Nat.zero_le mc) ha
  · intro hne
    unfold processReportsSuccess
    simp [List.isEmpty_iff, hne]


lemma chunkLoop3F_cap3_eval :
    chunkLoop3F (M := Unit) 4 2 3 capText () 100 0 0 [] =
      some [⟨chars ("aaaa"), 0, 0, 4, ()⟩, ⟨chars ("aaaa"), 1, 0, 4, ()⟩,
        ⟨chars ("aaaa"), 2, 0, 4, ()⟩] := by
  rw [show chunkLoop3F (M := Unit) 4 2 3 capText () 100 0 0 [] =
      chunkLoop3F (M := Unit) 4 2 3 capText () 99 2 1
        [⟨chars ("aaaa"), 0, 0, 4, ()⟩] from rfl]
  rw [show chunkLoop3F (M := Unit) 4 2 3 capText () 99 2 1
        [⟨chars ("aaaa"), 0, 0, 4, ()⟩] =
      chunkLoop3F (M := Unit) 4 2 3 capText () 98 4 2
        [⟨chars ("aaaa"), 0, 0, 4, ()⟩, ⟨chars ("aaaa"), 1, 0, 4, ()⟩] from rfl]
  rw [show chunkLoop3F (M := Unit) 4 2 3 capText () 98 4 2
        [⟨chars ("aaaa"), 0, 0, 4, ()⟩, ⟨chars ("aaaa"), 1, 0, 4, ()⟩] =
      chunkLoop3F (M := Unit) 4 2 3 capText () 97 6 3
        [⟨chars ("aaaa"), 0, 0, 4, ()⟩, ⟨chars ("aaaa"), 1, 0, 4, ()⟩,
          ⟨chars ("aaaa"), 2, 0, 4, ()⟩] from rfl]
  rfl

lemma chunkLoop3F_cap50_eval :
    chunkLoop3F (M := Unit) 4 2 50 capText () 100 0 0 [] =
      some [⟨chars ("aaaa"), 0, 0, 4, ()⟩, ⟨chars ("aaaa"), 1, 0, 4, ()⟩,
        ⟨chars ("aaaa"), 2, 0, 4, ()⟩, ⟨chars ("aaaa"), 3, 0, 4, ()⟩,
        ⟨chars ("aa"), 4, 0, 2, ()⟩] := by
  rw [show chunkLoop3F (M := Unit) 4 2 50 capText () 100 0 0 [] =
      chunkLoop3F (M := Unit) 4 2 50 capText () 99 2 1
        [⟨chars ("aaaa"), 0, 0, 4, ()⟩] from rfl]
  rw [show chunkLoop3F (M := Unit) 4 2 50 capText () 99 2 1
        [⟨chars ("aaaa"), 0, 0, 4, ()⟩] =
      chunkLoop3F (M := Unit) 4 2 50 capText () 98 4 2
        [⟨chars ("aaaa"), 0, 0, 4, ()⟩, ⟨chars ("aaaa"), 1, 0, 4, ()⟩] from rfl]
  rw [show chunkLoop3F (M := Unit) 4 2 50 capText () 98 4 2
        [⟨chars ("aaaa"), 0, 0, 4, ()⟩, ⟨chars ("aaaa"), 1, 0, 4, ()⟩] =
      chunkLoop3F (M := Unit) 4 2 50 capText () 97 6 3
        [⟨chars ("aaaa"), 0, 0, 4, ()⟩, ⟨chars ("aaaa"), 1, 0, 4, ()⟩,
          ⟨chars ("aaaa"), 2, 0, 4, ()⟩] from rfl]
  rw [show chunkLoop3F (M := Unit) 4 2 50 capText () 97 6 3
        [⟨chars ("aaaa"), 0, 0, 4, ()⟩, ⟨chars ("aaaa"), 1, 0, 4, ()⟩,
          ⟨chars ("aaaa"), 2, 0, 4, ()⟩] =
      chunkLoop3F (M := Unit) 4 2 50 capText () 96 8 4
        [⟨chars ("aaaa"), 0, 0, 4, ()⟩, ⟨chars ("aaaa"), 1, 0, 4, ()⟩,
          ⟨chars ("aaaa"), 2, 0, 4, ()⟩, ⟨chars ("aaaa"), 3, 0, 4, ()⟩] from rfl]
  rw [show chunkLoop3F (M := Unit) 4 2 50 capText () 96 8 4
        [⟨chars ("aaaa"), 0, 0, 4, ()⟩, ⟨chars ("aaaa"), 1, 0, 4, ()⟩,
          ⟨chars ("aaaa"), 2, 0, 4, ()⟩, ⟨chars ("aaaa"), 3, 0, 4, ()⟩] =
      chunkLoop3F (M := Unit) 4 2 50 capText () 95 10 5
        [⟨chars ("aaaa"), 0, 0, 4, ()⟩, ⟨chars ("aaaa"), 1, 0, 4, ()⟩,
          ⟨chars ("aaaa"), 2, 0, 4, ()⟩, ⟨chars ("aaaa"), 3, 0, 4, ()⟩,
          ⟨chars ("aa"), 4, 0, 2, ()⟩] from rfl]
  rfl

lemma createTextChunks3F_cap3_eval :
    createTextChunks3F (M := Unit) 4 2 3 100 capText () =
      some [⟨chars ("aaaa"), 0, 3, 4, ()⟩, ⟨chars ("aaaa"), 1, 3, 4, ()⟩,
        ⟨chars ("aaaa"), 2, 3, 4, ()⟩] := by
  rw [show createTextChunks3F (M := Unit) 4 2 3 100 capText ()
      = (chunkLoop3F (M := Unit) 4 2 3 capText () 100 0 0 []).map backfillTotals from rfl]
  rw [chunkLoop3F_cap3_eval]
  rfl

lemma createTextChunks3F_cap50_eval :
    createTextChunks3F (M := Unit) 4 2 50 100 capText () =
      some [⟨chars ("aaaa"), 0, 5, 4, ()⟩, ⟨chars ("aaaa"), 1, 5, 4, ()⟩,
        ⟨chars ("aaaa"), 2, 5, 4, ()⟩, ⟨chars ("aaaa"), 3, 5, 4, ()⟩,
        ⟨chars ("aa"), 4, 5, 2, ()⟩] := by
  rw [show createTextChunks3F (M := Unit) 4 2 50 100 capText ()
      = (chunkLoop3F (M := Unit) 4 2 50 capText () 100 0 0 []).map backfillTotals from rfl]
  rw [chunkLoop3F_cap50_eval]
  rfl

/-- C4 counterexample: on a 10-character delimiter-free text with
`chunk_size = 4`, `chunk_overlap = 2`, `max_chunks = 3`, the capped run
returns exactly the first 3 of the 5 segments the uncapped run produces —
silent truncation — and the episode outcome is still reported as success. -/
theorem cap_truncation_reported_success_cex :
    ((createTextChunks3F (M := Unit) 4 2 3 100 capText ()).map List.length = some 3) ∧
    ((createTextChunks3F (M := Unit) 4 2 50 100 capText ()).map List.length = some 5) ∧
    ((createTextChunks3F (M := Unit) 4 2 3 100 capText ()).map
        (fun l => l.map (fun c => c.content))
      = (createTextChunks3F (M := Unit) 4 2 50 100 capText ()).map
          (fun l => (l.map (fun c => c.content)).take 3)) ∧
    (processReportsSuccess (createTextChunks3F (M := Unit) 4 2 3 100 capText ()) true
      = some true) := by
  refine ⟨?_, ?_, ?_, ?_⟩
  · rw [createTextChunks3F_cap3_eval]
    rfl
  · rw [createTextChunks3F_cap50_eval]
    rfl
  · rw [createTextChunks3F_cap3_eval, createTextChunks3F_cap50_eval]
    rfl
  · rw [createTextChunks3F_cap3_eval]
    rfl

/-- Witness for C4's amended theorem at the concrete capped run. -/
theorem create_text_chunks_cap_truncates_witness :
    (1 : Nat) ≤ 3 ∧
    createTextChunks3F (M := Unit) 4 2 3 100 capText () =
      some [⟨chars ("aaaa"), 0, 3, 4, ()⟩, ⟨chars ("aaaa"), 1, 3, 4, ()⟩,
        ⟨chars ("aaaa"), 2, 3, 4, ()⟩] ∧
    (([(⟨chars ("aaaa"), 0, 3, 4, ()⟩ : Chunk Unit), ⟨chars ("aaaa"), 1, 3, 4, ()⟩,
        ⟨chars ("aaaa"), 2, 3, 4, ()⟩].length ≤ 3) ∧
      (([(⟨chars ("aaaa"), 0, 3, 4, ()⟩ : Chunk Unit), ⟨chars ("aaaa"), 1, 3, 4, ()⟩,
          ⟨chars ("aaaa"), 2, 3, 4, ()⟩] : List (Chunk Unit)) ≠ [] →
        processReportsSuccess
          (some [(⟨chars ("aaaa"), 0, 3, 4, ()⟩ : Chunk Unit), ⟨chars ("aaaa"), 1, 3, 4, ()⟩,
            ⟨chars ("aaaa"), 2, 3, 4, ()⟩]) true = some true)) :=
  ⟨by decide, createTextChunks3F_cap3_eval,
    create_text_chunks_cap_truncates 4 2 3 100 capText ()
      [⟨chars ("aaaa"), 0, 3, 4, ()⟩, ⟨chars ("aaaa"), 1, 3, 4, ()⟩,
        ⟨chars ("aaaa"), 2, 3, 4, ()⟩] (by decide) createTextChunks3F_cap3_eval⟩
